import Mathlib

/-!
Verification of the Smart Grocery Shopping Assistant backend.

The development shallowly embeds the Python backend
(`backend/assistant_logic.py`, `backend/chatbot_logic.py`,
`backend/models.py`) in Lean:

* dates are modelled as integers counting days, so that a Python
  `(d1 - d2).days` becomes integer subtraction;
* Python's `str.lower()` is modelled character-wise by `strLower`;
* the JSON-backed stores are modelled as fields of the `GroceryAssistant`
  state, and each `json.dump` is an assignment to the corresponding file
  field together with a bump of a write counter;
* Python dicts are modelled as association lists in insertion order, with
  `histSet` reproducing dict assignment (update in place, else append) and
  `histFind` reproducing dict lookup.
-/

namespace Grocery

/-- Model of Python `str.lower()`: lower-case every character. -/
def strLower (s : String) : String := ⟨s.data.map Char.toLower⟩

/-- Model of `models.Product` (pydantic `BaseModel`): every field except
`name` is optional and defaults to `None`.  Dates are day numbers. -/
structure Product where
  name : String
  quantity : Option String := none
  unit : Option String := none
  category : Option String := none
  purchase_date : Option Int := none
  expiry_date : Option Int := none
deriving DecidableEq, Repr

/-- State of `assistant_logic.GroceryAssistant` together with the two
mutable backing stores (`grocery_list.json`, `purchase_history.json`).
A purchase-history entry `{"last_purchase_date": d}` is modelled by the
day number `d`, so the history dict becomes a `List (String × Int)`.
`list_writes` and `history_writes` count the `json.dump` calls on the two
files, so "persists only if something changed" is observable. -/
structure GroceryAssistant where
  items : List Product
  purchase_history : List (String × Int)
  grocery_list_file : List Product
  purchase_history_file : List (String × Int)
  list_writes : Nat := 0
  history_writes : Nat := 0
deriving DecidableEq, Repr

/-- Model of `GroceryAssistant.save_grocery_list`: rewrite the list file
with the in-memory items. -/
def save_grocery_list (s : GroceryAssistant) : GroceryAssistant :=
  { s with grocery_list_file := s.items, list_writes := s.list_writes + 1 }

/-- Model of `GroceryAssistant.add_item_to_list`: append, save, return the
stored item. -/
def add_item_to_list (s : GroceryAssistant) (item : Product) :
    GroceryAssistant × Product :=
  let s1 := { s with items := s.items ++ [item] }
  (save_grocery_list s1, item)

/-- Model of `GroceryAssistant.remove_item_from_list`: keep the items whose
lower-cased name differs from the lower-cased query; save and return `true`
exactly when the kept list got shorter. -/
def remove_item_from_list (s : GroceryAssistant) (item_name : String) :
    GroceryAssistant × Bool :=
  let kept := s.items.filter (fun item => strLower item.name != strLower item_name)
  if kept.length < s.items.length then
    (save_grocery_list { s with items := kept }, true)
  else
    ({ s with items := kept }, false)

/-- Model of `GroceryAssistant.get_grocery_list`. -/
def get_grocery_list (s : GroceryAssistant) : List Product := s.items

/-- C1 helper: the matching predicate used by `remove_item_from_list`. -/
def removeKeeps (q : String) (item : Product) : Bool :=
  strLower item.name != strLower q

theorem removeKeeps_false_iff (q : String) (item : Product) :
    removeKeeps q item = false ↔ strLower item.name = strLower q := by
  simp [removeKeeps, bne]

/-- C1: `remove(nameQuery)` removes all (not just the first) entries whose
lower-cased name equals the lower-cased query, returns `true` iff at least
one entry was removed, rewrites the list store exactly when it returns
`true`, and on `false` leaves the whole state (list and store) unchanged. -/
theorem remove_item_from_list_spec (s : GroceryAssistant) (q : String) :
    ((remove_item_from_list s q).1.items = s.items.filter (removeKeeps q)) ∧
    ((remove_item_from_list s q).2 = true ↔
      ∃ item ∈ s.items, strLower item.name = strLower q) ∧
    ((remove_item_from_list s q).2 = true →
      (remove_item_from_list s q).1.grocery_list_file =
        s.items.filter (removeKeeps q) ∧
      (remove_item_from_list s q).1.list_writes = s.list_writes + 1) ∧
    ((remove_item_from_list s q).2 = false → remove_item_from_list s q = (s, false)) := by
  by_cases hlt :
      (s.items.filter (fun item => strLower item.name != strLower q)).length <
        s.items.length
  · have hex : ∃ item ∈ s.items, strLower item.name = strLower q := by
      rcases List.length_filter_lt_length_iff_exists.mp hlt with ⟨x, hx, hpx⟩
      exact ⟨x, hx, by simpa [bne] using hpx⟩
    refine ⟨?_, ?_, ?_, ?_⟩
    · simp only [remove_item_from_list, hlt, if_pos, save_grocery_list]
      rfl
    · simp [remove_item_from_list, hlt, hex]
    · intro _
      constructor
      · simp only [remove_item_from_list, hlt, if_pos, save_grocery_list]
        rfl
      · simp [remove_item_from_list, hlt, save_grocery_list]
    · intro hfalse
      exfalso
      simp [remove_item_from_list, hlt] at hfalse
  · have hall : ∀ item ∈ s.items, (strLower item.name != strLower q) = true := by
      intro item hitem
      by_contra hnot
      exact hlt (List.length_filter_lt_length_iff_exists.mpr ⟨item, hitem, hnot⟩)
    have hfix : s.items.filter (fun item => strLower item.name != strLower q) = s.items :=
      List.filter_eq_self.mpr hall
    have hnoex : ¬ ∃ item ∈ s.items, strLower item.name = strLower q := by
      rintro ⟨item, hitem, heq⟩
      have := hall item hitem
      simp [bne, heq] at this
    refine ⟨?_, ?_, ?_, ?_⟩
    · simp only [remove_item_from_list, hlt, if_neg]
      rfl
    · simp [remove_item_from_list, hlt, hnoex]
    · intro htrue
      exfalso
      simp [remove_item_from_list, hlt] at htrue
    · intro _
      simp [remove_item_from_list, hlt, removeKeeps, hfix]

/-- Concrete state used to instantiate the list-manager theorems: a list
holding "Milk", "Bread" and "MILK" and empty stores. -/
def sampleListState : GroceryAssistant :=
  { items := [{ name := "Milk" }, { name := "Bread" }, { name := "MILK" }],
    purchase_history := [], grocery_list_file := [],
    purchase_history_file := [] }

/-- C1 witness: removing "milk" from a list holding "Milk" and "MILK"
reports a removal and rewrites the store; the theorem's hypotheses are
discharged on this concrete state. -/
theorem remove_item_from_list_spec_witness :
    (remove_item_from_list sampleListState "milk").2 = true ∧
    (remove_item_from_list sampleListState "milk").1.list_writes = 0 + 1 :=
  have htrue : (remove_item_from_list sampleListState "milk").2 = true :=
    (remove_item_from_list_spec sampleListState "milk").2.1.mpr
      ⟨{ name := "Milk" }, by decide, by decide⟩
  ⟨htrue, ((remove_item_from_list_spec sampleListState "milk").2.2.1 htrue).2⟩

/-- C8: adding an item appends it at the end, persists the new list, and
returns the stored item with every field unchanged. -/
theorem add_item_to_list_spec (s : GroceryAssistant) (item : Product) :
    get_grocery_list (add_item_to_list s item).1 = s.items ++ [item] ∧
    (get_grocery_list (add_item_to_list s item).1).getLast? = some item ∧
    (add_item_to_list s item).2 = item ∧
    (add_item_to_list s item).1.grocery_list_file = s.items ++ [item] ∧
    (add_item_to_list s item).1.list_writes = s.list_writes + 1 ∧
    ((add_item_to_list s item).2.name = item.name ∧
      (add_item_to_list s item).2.quantity = item.quantity ∧
      (add_item_to_list s item).2.unit = item.unit ∧
      (add_item_to_list s item).2.category = item.category ∧
      (add_item_to_list s item).2.purchase_date = item.purchase_date ∧
      (add_item_to_list s item).2.expiry_date = item.expiry_date) :=
  ⟨rfl, List.getLast?_concat _, rfl, rfl, rfl, rfl, rfl, rfl, rfl, rfl, rfl⟩

/-- Model of a Python dict assignment `h[k] = v` on an association list:
if the key is present, overwrite its value in place, otherwise append. -/
def histSet (h : List (String × Int)) (k : String) (v : Int) :
    List (String × Int) :=
  if h.any (fun p => p.1 == k) then
    h.map (fun p => if p.1 == k then (k, v) else p)
  else h ++ [(k, v)]

/-- Model of a Python dict lookup `h.get(k)` on an association list. -/
def histFind (h : List (String × Int)) (k : String) : Option Int :=
  (h.find? (fun p => p.1 == k)).map Prod.snd

theorem histFind_nil (k : String) : histFind [] k = none := rfl

theorem histFind_cons (p : String × Int) (h : List (String × Int)) (k : String) :
    histFind (p :: h) k = if p.1 = k then some p.2 else histFind h k := by
  by_cases hpk : p.1 = k <;> simp [histFind, List.find?_cons, hpk]

theorem histFind_append_single (h : List (String × Int)) (k k' : String) (v : Int) :
    histFind (h ++ [(k, v)]) k' =
      (histFind h k').or (if k' = k then some v else none) := by
  unfold histFind
  rw [List.find?_append]
  by_cases hkk : k' = k
  · subst hkk
    cases hf : h.find? (fun p => p.1 == k') with
    | none => simp
    | some w => simp
  · have hne : ¬ k = k' := fun hc => hkk hc.symm
    cases hf : h.find? (fun p => p.1 == k') with
    | none => simp [hne, hkk]
    | some w => simp [hkk]

theorem histFind_mapSet (h : List (String × Int)) (k k' : String) (v : Int) :
    histFind (h.map (fun p => if p.1 == k then (k, v) else p)) k' =
      if k' = k then (histFind h k).map (fun _ => v) else histFind h k' := by
  induction h with
  | nil => by_cases hkk : k' = k <;> simp [histFind, hkk]
  | cons p t ih =>
    have hmap : (p :: t).map (fun p => if p.1 == k then (k, v) else p) =
        (if p.1 == k then (k, v) else p) ::
          t.map (fun p => if p.1 == k then (k, v) else p) := rfl
    by_cases hpk : p.1 = k
    · rw [hmap, if_pos (by simpa using hpk)]
      by_cases hkk : k' = k
      · subst hkk
        rw [histFind_cons, if_pos rfl, if_pos rfl, histFind_cons, if_pos hpk]
        rfl
      · have hne : ¬ (k, v).1 = k' := fun hc => hkk hc.symm
        have hpne : ¬ p.1 = k' := fun hc => hkk (hpk.symm.trans hc).symm
        rw [if_neg hkk, histFind_cons, if_neg hne, ih, if_neg hkk,
          histFind_cons, if_neg hpne]
    · rw [hmap, if_neg (by simpa using hpk)]
      by_cases hkk : k' = k
      · subst hkk
        have hpne : ¬ p.1 = k' := hpk
        rw [histFind_cons, if_neg hpne, ih, if_pos rfl, if_pos rfl,
          histFind_cons, if_neg hpne]
      · rw [if_neg hkk, histFind_cons, ih, if_neg hkk, histFind_cons]

theorem histFind_isSome_iff_any (h : List (String × Int)) (k : String) :
    (histFind h k).isSome = h.any (fun p => p.1 == k) := by
  induction h with
  | nil => rfl
  | cons p t ih =>
    rw [histFind_cons]
    by_cases hpk : p.1 = k <;> simp [hpk, ih]

/-- Dict assignment followed by lookup: the assigned key now maps to the
assigned value, all other keys are untouched. -/
theorem histFind_histSet (h : List (String × Int)) (k k' : String) (v : Int) :
    histFind (histSet h k v) k' = if k' = k then some v else histFind h k' := by
  unfold histSet
  by_cases hany : h.any (fun p => p.1 == k) = true
  · rw [if_pos hany, histFind_mapSet]
    by_cases hkk : k' = k
    · subst hkk
      have hsome : (histFind h k').isSome = true := by
        rw [histFind_isSome_iff_any]; exact hany
      rcases Option.isSome_iff_exists.mp hsome with ⟨w, hw⟩
      simp [hw]
    · simp [hkk]
  · have hfalse : h.any (fun p => p.1 == k) = false := by
      cases hb : h.any (fun p => p.1 == k)
      · rfl
      · exact absurd hb hany
    rw [if_neg hany, histFind_append_single]
    have hnone : histFind h k = none := by
      cases hfk : histFind h k with
      | none => rfl
      | some w =>
        have hiso := histFind_isSome_iff_any h k
        rw [hfk, hfalse] at hiso
        simp at hiso
    by_cases hkk : k' = k
    · subst hkk
      rw [hnone]
      simp
    · simp [hkk]

/-- The keys of a dict are unchanged by assignment to an existing key, and
extended by the new key otherwise. -/
theorem histSet_keys (h : List (String × Int)) (k : String) (v : Int) :
    (histSet h k v).map Prod.fst =
      if h.any (fun p => p.1 == k) then h.map Prod.fst
      else h.map Prod.fst ++ [k] := by
  unfold histSet
  by_cases hany : h.any (fun p => p.1 == k) = true
  · rw [if_pos hany, if_pos hany, List.map_map]
    congr 1
    funext p
    by_cases hpk : p.1 = k <;> simp [hpk]
  · rw [if_neg hany, if_neg hany]
    simp

/-- Model of `GroceryAssistant.mark_items_as_purchased` (the purchase
closer): record today's date for every listed item in the history dict,
persist the history, then clear and persist the list. -/
def mark_items_as_purchased (s : GroceryAssistant) (today : Int) :
    GroceryAssistant :=
  let hist := s.items.foldl (fun h item => histSet h (strLower item.name) today) s.purchase_history
  let s1 := { s with purchase_history := hist,
                     purchase_history_file := hist,
                     history_writes := s.history_writes + 1 }
  save_grocery_list { s1 with items := [] }

/-- Once a key maps to today, folding further purchase updates (which all
write today) keeps it mapped to today; and any item's key ends mapped to
today. -/
theorem purchasedFold_histFind (today : Int) (items : List Product) :
    ∀ (h : List (String × Int)) (k : String),
      (histFind h k = some today ∨ ∃ item ∈ items, strLower item.name = k) →
      histFind (items.foldl (fun h item => histSet h (strLower item.name) today) h) k =
        some today := by
  induction items with
  | nil =>
    intro h k hk
    rcases hk with hk | ⟨item, hmem, _⟩
    · simpa using hk
    · exact absurd hmem (List.not_mem_nil item)
  | cons i t ih =>
    intro h k hk
    rw [List.foldl_cons]
    apply ih
    by_cases hki : k = strLower i.name
    · left; rw [histFind_histSet, if_pos hki]
    · rcases hk with hk | ⟨item, hmem, hitem⟩
      · left; rw [histFind_histSet, if_neg hki]; exact hk
      · rcases List.mem_cons.mp hmem with hhead | htail
        · exact absurd (hhead ▸ hitem).symm hki
        · right; exact ⟨item, htail, hitem⟩

/-- C2: after `mark_items_as_purchased` the list is empty, the (empty) list
and the updated history are persisted, and every previously listed item's
lower-cased name maps to today's date in the history. -/
theorem mark_items_as_purchased_spec (s : GroceryAssistant) (today : Int) :
    (mark_items_as_purchased s today).items = [] ∧
    (mark_items_as_purchased s today).grocery_list_file = [] ∧
    (mark_items_as_purchased s today).purchase_history_file =
      (mark_items_as_purchased s today).purchase_history ∧
    (mark_items_as_purchased s today).list_writes = s.list_writes + 1 ∧
    (mark_items_as_purchased s today).history_writes = s.history_writes + 1 ∧
    (∀ item ∈ s.items,
      histFind (mark_items_as_purchased s today).purchase_history
        (strLower item.name) = some today) := by
  refine ⟨rfl, rfl, rfl, rfl, rfl, ?_⟩
  intro item hmem
  exact purchasedFold_histFind today s.items s.purchase_history (strLower item.name)
    (Or.inr ⟨item, hmem, rfl⟩)

/-- C2 witness: closing the purchases of the sample list records "milk" and
"bread" in the history with today's date (day 100) and empties the list. -/
theorem mark_items_as_purchased_spec_witness :
    (mark_items_as_purchased sampleListState 100).items = [] ∧
    histFind (mark_items_as_purchased sampleListState 100).purchase_history
      (strLower "Bread") = some 100 :=
  ⟨(mark_items_as_purchased_spec sampleListState 100).1,
   (mark_items_as_purchased_spec sampleListState 100).2.2.2.2.2
     { name := "Bread" } (by decide)⟩

/-- The suggestion string built in `suggest_missing_items` (its odd wording
is reproduced verbatim from the source). -/
def suggestionMsg (name : String) : String :=
  "You bought " ++ name ++ " a last week, consider adding it."

/-- Loop body of `GroceryAssistant.suggest_missing_items`: walk the history
entries, skip lower-cased names already processed, and for names absent
from the current list emit a suggestion when the last purchase is more than
7 days old. -/
def suggestGo (cur : List String) (today : Int) (processed : List String) :
    List (String × Int) → List String
  | [] => []
  | e :: rest =>
    if processed.contains (strLower e.1) then suggestGo cur today processed rest
    else if cur.contains (strLower e.1) then
      suggestGo cur today (strLower e.1 :: processed) rest
    else if 7 < today - e.2 then
      suggestionMsg e.1 :: suggestGo cur today (strLower e.1 :: processed) rest
    else suggestGo cur today (strLower e.1 :: processed) rest

/-- Model of `GroceryAssistant.suggest_missing_items`. -/
def suggest_missing_items (s : GroceryAssistant) (today : Int) : List String :=
  suggestGo (s.items.map (fun item => strLower item.name)) today [] s.purchase_history

/-- The emission condition of a single history entry: absent from the
current list and last purchased more than 7 days ago. -/
def missingCond (cur : List String) (today : Int) (e : String × Int) : Bool :=
  !cur.contains (strLower e.1) && decide (7 < today - e.2)

theorem suggestGo_eq_filter (cur : List String) (today : Int) :
    ∀ (h : List (String × Int)) (processed : List String),
      (∀ e ∈ h, strLower e.1 ∉ processed) →
      (h.map (fun e => strLower e.1)).Nodup →
      suggestGo cur today processed h =
        (h.filter (missingCond cur today)).map (fun e => suggestionMsg e.1) := by
  intro h
  induction h with
  | nil => intro processed _ _; rfl
  | cons e t ih =>
    intro processed hproc hnd
    have hnotproc : ¬ processed.contains (strLower e.1) = true := by
      intro hc
      exact hproc e (List.mem_cons_self e t) (by simpa using hc)
    have hndt : (t.map (fun e => strLower e.1)).Nodup := (List.nodup_cons.mp hnd).2
    have hhead : strLower e.1 ∉ t.map (fun e => strLower e.1) :=
      (List.nodup_cons.mp hnd).1
    have hproct : ∀ e' ∈ t, strLower e'.1 ∉ strLower e.1 :: processed := by
      intro e' he' hmem
      rcases List.mem_cons.mp hmem with heq | hin
      · exact hhead (heq ▸ List.mem_map_of_mem (fun e => strLower e.1) he')
      · exact hproc e' (List.mem_cons_of_mem e he') hin
    rw [suggestGo, if_neg hnotproc]
    by_cases hcur : cur.contains (strLower e.1) = true
    · have hcond : missingCond cur today e = false := by
        unfold missingCond
        rw [hcur]
        rfl
      rw [if_pos hcur, List.filter_cons_of_neg (by simp [hcond]),
        ih (strLower e.1 :: processed) hproct hndt]
    · have hcurf : cur.contains (strLower e.1) = false := by
        cases hb : cur.contains (strLower e.1)
        · rfl
        · exact absurd hb hcur
      by_cases hdate : 7 < today - e.2
      · have hcond : missingCond cur today e = true := by
          unfold missingCond
          rw [hcurf, decide_eq_true hdate]
          rfl
        rw [if_neg hcur, if_pos hdate, List.filter_cons_of_pos hcond,
          List.map_cons, ih (strLower e.1 :: processed) hproct hndt]
      · have hcond : missingCond cur today e = false := by
          unfold missingCond
          rw [hcurf, decide_eq_false hdate]
          rfl
        rw [if_neg hcur, if_neg hdate, List.filter_cons_of_neg (by simp [hcond]),
          ih (strLower e.1 :: processed) hproct hndt]

/-- C3: on a history whose lower-cased names are pairwise distinct (the
invariant the load normalization establishes), the missing-item operation
emits exactly one suggestion per entry whose lower-cased name is absent
from the current list and whose last purchase is strictly more than 7 days
old — so a 7-day-old entry is silent and an 8-day-old one suggests. -/
theorem suggest_missing_items_spec (s : GroceryAssistant) (today : Int)
    (hnd : (s.purchase_history.map (fun e => strLower e.1)).Nodup) :
    suggest_missing_items s today =
      (s.purchase_history.filter
        (missingCond (s.items.map (fun item => strLower item.name)) today)).map
        (fun e => suggestionMsg e.1) := by
  unfold suggest_missing_items
  exact suggestGo_eq_filter (s.items.map (fun item => strLower item.name)) today
    s.purchase_history [] (fun e _ => List.not_mem_nil (strLower e.1)) hnd

/-- C3 witness: with the list holding only "Egg", a history entry "Bread"
dated 8 days ago suggests while "milk" dated exactly 7 days ago does not. -/
theorem suggest_missing_items_spec_witness :
    suggest_missing_items
      { items := [{ name := "Egg" }],
        purchase_history := [("Bread", 2), ("milk", 3), ("egg", 0)],
        grocery_list_file := [], purchase_history_file := [] } 10 =
      [suggestionMsg "Bread"] := by
  rw [suggest_missing_items_spec
    { items := [{ name := "Egg" }],
      purchase_history := [("Bread", 2), ("milk", 3), ("egg", 0)],
      grocery_list_file := [], purchase_history_file := [] } 10 (by decide)]
  decide

/-- The reminder string built in `get_expiry_reminders`. -/
def reminderMsg (name : String) (d : Int) : String :=
  "Reminder: " ++ name ++ " is expiring in " ++ toString d ++ " days."

/-- Loop body of `GroceryAssistant.get_expiry_reminders`: for items with an
expiry date, remind when the expiry is 1 to 5 days away. -/
def expiryGo (today : Int) : List Product → List String
  | [] => []
  | item :: rest =>
    match item.expiry_date with
    | some d =>
      if 1 ≤ d - today ∧ d - today ≤ 5 then
        reminderMsg item.name (d - today) :: expiryGo today rest
      else expiryGo today rest
    | none => expiryGo today rest

/-- Model of `GroceryAssistant.get_expiry_reminders`. -/
def get_expiry_reminders (s : GroceryAssistant) (today : Int) : List String :=
  expiryGo today s.items

/-- The per-item reminder decision: `some` reminder exactly when the item
has an expiry date 1 to 5 days away. -/
def expiryCheck (today : Int) (item : Product) : Option String :=
  match item.expiry_date with
  | some d =>
    if 1 ≤ d - today ∧ d - today ≤ 5 then some (reminderMsg item.name (d - today))
    else none
  | none => none

/-- C4: the expiry-reminder operation emits, in list order, one reminder
per item whose expiry date `d` satisfies `1 ≤ d - today ≤ 5`; items with no
expiry date, expiring today, already expired, or 6 or more days out are
silent. -/
theorem get_expiry_reminders_spec (s : GroceryAssistant) (today : Int) :
    get_expiry_reminders s today = s.items.filterMap (expiryCheck today) := by
  unfold get_expiry_reminders
  induction s.items with
  | nil => rfl
  | cons item rest ih =>
    cases hexp : item.expiry_date with
    | none =>
      have h1 : expiryGo today (item :: rest) = expiryGo today rest := by
        simp [expiryGo, hexp]
      rw [h1, List.filterMap_cons_none (by simp [expiryCheck, hexp]), ih]
    | some d =>
      by_cases hwin : 1 ≤ d - today ∧ d - today ≤ 5
      · have h1 : expiryGo today (item :: rest) =
            reminderMsg item.name (d - today) :: expiryGo today rest := by
          simp [expiryGo, hexp, hwin]
        have h2 : expiryCheck today item = some (reminderMsg item.name (d - today)) := by
          simp [expiryCheck, hexp, hwin]
        rw [h1, List.filterMap_cons_some h2, ih]
      · have h1 : expiryGo today (item :: rest) = expiryGo today rest := by
          simp [expiryGo, hexp]
          omega
        have h2 : expiryCheck today item = none := by
          simp [expiryCheck, hexp]
          omega
        rw [h1, List.filterMap_cons_none h2, ih]

/-- One step of the normalization pass in
`GroceryAssistant.load_purchase_history`: lower-case the raw key; on a
collision keep the later date (strictly newer overwrites), otherwise append
the entry under its lower-cased key. -/
def normalizeStepAux (acc : List (String × Int)) (lk : String) (d : Int) :
    Option Int → List (String × Int)
  | some existing => if existing < d then histSet acc lk d else acc
  | none => acc ++ [(lk, d)]

def normalizeStep (acc : List (String × Int)) (e : String × Int) :
    List (String × Int) :=
  normalizeStepAux acc (strLower e.1) e.2 (histFind acc (strLower e.1))

/-- The normalization pass of `load_purchase_history` over the raw
(parsed) history dict. -/
def normalizeHistory (raw : List (String × Int)) : List (String × Int) :=
  raw.foldl normalizeStep []

/-- Fold a further date into an optional running maximum. -/
def omax : Option Int → Int → Option Int
  | none, d => some d
  | some m, d => some (max m d)

/-- The raw dates filed under a given lower-cased key. -/
def datesFor (raw : List (String × Int)) (k : String) : List Int :=
  (raw.filter (fun e => strLower e.1 == k)).map Prod.snd

theorem histFind_eq_none_iff (h : List (String × Int)) (k : String) :
    histFind h k = none ↔ k ∉ h.map Prod.fst := by
  induction h with
  | nil => simp [histFind_nil]
  | cons p t ih =>
    rw [histFind_cons]
    by_cases hpk : p.1 = k
    · simp [hpk]
    · rw [if_neg hpk, ih]
      simp only [List.map_cons, List.mem_cons]
      constructor
      · intro h hor
        rcases hor with h1 | h2
        · exact hpk h1.symm
        · exact h h2
      · intro h hmem
        exact h (Or.inr hmem)

theorem histFind_normalizeStep (acc : List (String × Int)) (e : String × Int)
    (k : String) :
    histFind (normalizeStep acc e) k =
      if strLower e.1 = k then omax (histFind acc k) e.2
      else histFind acc k := by
  unfold normalizeStep
  cases hf : histFind acc (strLower e.1) with
  | none =>
    simp only [normalizeStepAux]
    rw [histFind_append_single]
    by_cases hk : strLower e.1 = k
    · subst hk
      rw [hf]
      simp [omax]
    · have hk' : ¬ k = strLower e.1 := fun hc => hk hc.symm
      simp [hk, hk']
  | some ex =>
    simp only [normalizeStepAux]
    by_cases hlt : ex < e.2
    · rw [if_pos hlt, histFind_histSet]
      by_cases hk : strLower e.1 = k
      · subst hk
        rw [if_pos rfl, if_pos rfl, hf]
        simp [omax, max_eq_right (le_of_lt hlt)]
      · have hk' : ¬ k = strLower e.1 := fun hc => hk hc.symm
        rw [if_neg hk', if_neg hk]
    · rw [if_neg hlt]
      by_cases hk : strLower e.1 = k
      · subst hk
        rw [if_pos rfl, hf]
        simp [omax, max_eq_left (le_of_not_lt hlt)]
      · rw [if_neg hk]

theorem histFind_foldl_normalizeStep (raw : List (String × Int)) :
    ∀ (acc : List (String × Int)) (k : String),
      histFind (raw.foldl normalizeStep acc) k =
        (datesFor raw k).foldl omax (histFind acc k) := by
  induction raw with
  | nil => intro acc k; rfl
  | cons e t ih =>
    intro acc k
    rw [List.foldl_cons, ih]
    by_cases hk : strLower e.1 = k
    · have hfil : datesFor (e :: t) k = e.2 :: datesFor t k := by
        simp [datesFor, List.filter_cons, hk]
      rw [hfil, List.foldl_cons, histFind_normalizeStep, if_pos hk]
    · have hfil : datesFor (e :: t) k = datesFor t k := by
        simp [datesFor, List.filter_cons, hk]
      rw [hfil, histFind_normalizeStep, if_neg hk]

theorem foldl_omax_some (l : List Int) :
    ∀ m : Int, l.foldl omax (some m) = some (l.foldl max m) := by
  induction l with
  | nil => intro m; rfl
  | cons d t ih => intro m; rw [List.foldl_cons, List.foldl_cons]; exact ih (max m d)

theorem foldl_omax_none (l : List Int) : l.foldl omax none = l.max? := by
  cases l with
  | nil => rfl
  | cons d t => rw [List.foldl_cons]; exact foldl_omax_some t d

theorem normalizeStep_keys (acc : List (String × Int)) (e : String × Int) :
    (normalizeStep acc e).map Prod.fst = acc.map Prod.fst ∨
    ((normalizeStep acc e).map Prod.fst = acc.map Prod.fst ++ [strLower e.1] ∧
      strLower e.1 ∉ acc.map Prod.fst) := by
  unfold normalizeStep
  cases hf : histFind acc (strLower e.1) with
  | none =>
    right
    simp only [normalizeStepAux]
    exact ⟨by simp, (histFind_eq_none_iff acc (strLower e.1)).mp hf⟩
  | some ex =>
    left
    simp only [normalizeStepAux]
    by_cases hlt : ex < e.2
    · rw [if_pos hlt, histSet_keys]
      have hany : acc.any (fun p => p.1 == strLower e.1) = true := by
        rw [← histFind_isSome_iff_any, hf]
        rfl
      rw [if_pos hany]
    · rw [if_neg hlt]

theorem normalizeStep_keys_nodup (acc : List (String × Int)) (e : String × Int)
    (h : (acc.map Prod.fst).Nodup) :
    ((normalizeStep acc e).map Prod.fst).Nodup := by
  rcases normalizeStep_keys acc e with hkeys | ⟨hkeys, hnot⟩
  · rw [hkeys]; exact h
  · rw [hkeys]
    exact List.Nodup.append h (List.nodup_singleton _) (by simpa using hnot)

theorem normalizeHistory_nodup_aux (raw : List (String × Int)) :
    ∀ acc : List (String × Int), (acc.map Prod.fst).Nodup →
      ((raw.foldl normalizeStep acc).map Prod.fst).Nodup := by
  induction raw with
  | nil => intro acc h; exact h
  | cons e t ih =>
    intro acc h
    rw [List.foldl_cons]
    exact ih (normalizeStep acc e) (normalizeStep_keys_nodup acc e h)

theorem normalizeHistory_keys_from (raw : List (String × Int)) :
    ∀ acc : List (String × Int),
      ∀ k ∈ (raw.foldl normalizeStep acc).map Prod.fst,
        k ∈ acc.map Prod.fst ∨ ∃ e ∈ raw, k = strLower e.1 := by
  induction raw with
  | nil => intro acc k hk; exact Or.inl hk
  | cons e t ih =>
    intro acc k hk
    rw [List.foldl_cons] at hk
    rcases ih (normalizeStep acc e) k hk with hin | ⟨e', he', hke'⟩
    · rcases normalizeStep_keys acc e with hkeys | ⟨hkeys, _⟩
      · exact Or.inl (hkeys ▸ hin)
      · rw [hkeys] at hin
        rcases List.mem_append.mp hin with hin | hin
        · exact Or.inl hin
        · exact Or.inr ⟨e, List.mem_cons_self e t, List.mem_singleton.mp hin⟩
    · exact Or.inr ⟨e', List.mem_cons_of_mem e he', hke'⟩

/-- What the grocery-list and purchase-history load operations see on
disk.  The file may be missing (`FileNotFoundError` on open), hold
content that fails JSON decoding (`json.JSONDecodeError`), hold content
that decodes but on which the loader's subsequent processing raises an
exception outside the `except (FileNotFoundError, json.JSONDecodeError)`
clause (`illTyped`), or hold a collection of the expected shape.  For the
grocery list, `illTyped` covers `Product(**item_data)` raising `TypeError`
or a pydantic `ValidationError`; for the history, `.items()` on a
non-dict, entry access on non-dict values, and `strptime` on a colliding
key with an unparseable date. -/
inductive FileState (α : Type) where
  | missing
  | undecodable
  | illTyped
  | wellFormed (content : α)
deriving DecidableEq

/-- What `load_categories` sees on disk.  The source returns
`json.load(f)` unchanged and never inspects the decoded value, so every
decodable content behaves alike: `decoded` stands for any content that
JSON-decodes, with the spec-shaped catalogs given a typed
representation. -/
inductive CatFileState (α : Type) where
  | missing
  | undecodable
  | decoded (content : α)
deriving DecidableEq

/-- The parse failure propagated uncaught by `load_categories`. -/
def jsonDecodeError : String := "json.decoder.JSONDecodeError"

/-- The exception `load_grocery_list` raises uncaught on decodable
content that is not a list of valid product records. -/
def productShapeError : String := "TypeError/pydantic.ValidationError"

/-- The exception `load_purchase_history` raises uncaught on decodable
content that is not a dict of entries with parseable dates. -/
def historyShapeError : String := "AttributeError/TypeError/ValueError"

/-- Model of `GroceryAssistant.load_purchase_history` (returned value):
`FileNotFoundError` and `json.JSONDecodeError` are caught and yield an
empty dict; exceptions raised while normalizing ill-shaped decoded
content are not caught and propagate; well-formed content goes through
the normalization pass. -/
def load_purchase_history (file : FileState (List (String × Int))) :
    Except String (List (String × Int)) :=
  match file with
  | .missing => .ok []
  | .undecodable => .ok []
  | .illTyped => .error historyShapeError
  | .wellFormed raw => .ok (normalizeHistory raw)

/-- Model of the history-file rewrite done inside `load_purchase_history`:
on a successful parse-and-normalize the de-duplicated dict is immediately
dumped back; in every other state (including an exception raised during
the normalization loop, which precedes the dump) the file is left as it
was. -/
def load_purchase_history_file (file : FileState (List (String × Int))) :
    FileState (List (String × Int)) :=
  match file with
  | .wellFormed raw => .wellFormed (normalizeHistory raw)
  | other => other

/-- Model of `GroceryAssistant.load_categories`: only `FileNotFoundError`
is caught; `json.JSONDecodeError` on undecodable content propagates to
the caller; decoded content is returned unchanged without any
shape-dependent processing. -/
def load_categories (file : CatFileState (List (String × List String))) :
    Except String (List (String × List String)) :=
  match file with
  | .missing => .ok []
  | .undecodable => .error jsonDecodeError
  | .decoded c => .ok c

/-- Model of `GroceryAssistant.load_grocery_list`: `FileNotFoundError`
and `json.JSONDecodeError` are caught and yield an empty list; the
`Product(**item_data)` conversion of ill-shaped decoded content raises
uncaught. -/
def load_grocery_list (file : FileState (List Product)) :
    Except String (List Product) :=
  match file with
  | .missing => .ok []
  | .undecodable => .ok []
  | .illTyped => .error productShapeError
  | .wellFormed d => .ok d

/-- C5: the history load lower-cases every key (each resulting key is the
lower-casing of some raw key), keeps at most one entry per key, maps each
key to the latest date among the raw entries normalizing to it, and writes
the de-duplicated dict straight back to the history file. -/
theorem load_purchase_history_spec (raw : List (String × Int)) :
    (∀ p ∈ normalizeHistory raw, ∃ e ∈ raw, p.1 = strLower e.1) ∧
    ((normalizeHistory raw).map Prod.fst).Nodup ∧
    (∀ k, histFind (normalizeHistory raw) k = (datesFor raw k).max?) ∧
    load_purchase_history (FileState.wellFormed raw) =
      Except.ok (normalizeHistory raw) ∧
    load_purchase_history_file (FileState.wellFormed raw) =
      FileState.wellFormed (normalizeHistory raw) := by
  refine ⟨?_, ?_, ?_, rfl, rfl⟩
  · intro p hp
    rcases normalizeHistory_keys_from raw [] p.1 (List.mem_map_of_mem Prod.fst hp) with
      hin | hfrom
    · exact absurd hin (List.not_mem_nil p.1)
    · exact hfrom
  · exact normalizeHistory_nodup_aux raw [] List.nodup_nil
  · intro k
    rw [normalizeHistory, histFind_foldl_normalizeStep, histFind_nil,
      foldl_omax_none]

/-- Concrete raw history with two keys differing only in case. -/
def sampleRawHistory : List (String × Int) :=
  [("Milk", 5), ("MILK", 9), ("egg", 3)]

/-- C5 witness: raw keys "Milk" and "MILK" merge into the single key
"milk" holding the later date 9, and the result is written back. -/
theorem load_purchase_history_spec_witness :
    histFind (normalizeHistory sampleRawHistory) "milk" =
      (datesFor sampleRawHistory "milk").max? ∧
    (∃ e ∈ sampleRawHistory, ("milk", (9 : Int)).1 = strLower e.1) ∧
    histFind (normalizeHistory sampleRawHistory) "milk" = some 9 :=
  ⟨(load_purchase_history_spec sampleRawHistory).2.2.1 "milk",
   (load_purchase_history_spec sampleRawHistory).1 ("milk", 9) (by decide),
   by decide⟩

/-- C6 counterexample: the claim says all three loaders return an empty
collection on malformed content and never raise, but the category loader
propagates the JSON decode error instead of returning an empty catalog. -/
theorem load_categories_malformed_not_empty :
    load_categories CatFileState.undecodable ≠ Except.ok [] ∧
    load_categories CatFileState.undecodable = Except.error jsonDecodeError := by
  constructor
  · intro h
    exact Except.noConfusion h
  · rfl

/-- C6 (amended): every loader returns an empty collection on a missing
file; the grocery-list and history loaders also return an empty
collection when the content fails JSON decoding, but raise uncaught
exceptions when it decodes to the wrong shape; the category loader
raises the decode error itself on undecodable content and performs no
shape-dependent processing on decoded content. -/
theorem load_error_handling :
    load_grocery_list FileState.missing = Except.ok [] ∧
    load_grocery_list FileState.undecodable = Except.ok [] ∧
    load_grocery_list FileState.illTyped = Except.error productShapeError ∧
    load_purchase_history FileState.missing = Except.ok [] ∧
    load_purchase_history FileState.undecodable = Except.ok [] ∧
    load_purchase_history FileState.illTyped = Except.error historyShapeError ∧
    load_categories CatFileState.missing = Except.ok [] ∧
    load_categories CatFileState.undecodable = Except.error jsonDecodeError ∧
    (∀ d : List Product,
      load_grocery_list (FileState.wellFormed d) = Except.ok d) ∧
    (∀ raw : List (String × Int),
      load_purchase_history (FileState.wellFormed raw) =
        Except.ok (normalizeHistory raw)) ∧
    (∀ c : List (String × List String),
      load_categories (CatFileState.decoded c) = Except.ok c) :=
  ⟨rfl, rfl, rfl, rfl, rfl, rfl, rfl, rfl,
   fun _ => rfl, fun _ => rfl, fun _ => rfl⟩

/-- Does the character list start with the pattern (first argument)? -/
def startsWithChars : List Char → List Char → Bool
  | [], _ => true
  | _ :: _, [] => false
  | p :: ps, c :: cs => p == c && startsWithChars ps cs

/-- Does the pattern (first argument) occur as a contiguous run inside the
character list? -/
def hasSubChars : List Char → List Char → Bool
  | pat, [] => pat.isEmpty
  | pat, c :: cs => startsWithChars pat (c :: cs) || hasSubChars pat cs

/-- Model of the Python membership test `pat in s` on strings. -/
def strContains (s pat : String) : Bool := hasSubChars pat.data s.data

theorem startsWithChars_iff (p : List Char) :
    ∀ l : List Char, startsWithChars p l = true ↔ p <+: l := by
  induction p with
  | nil =>
    intro l
    simp [startsWithChars, List.nil_prefix]
  | cons a ps ih =>
    intro l
    cases l with
    | nil => simp [startsWithChars]
    | cons c cs => simp [startsWithChars, List.cons_prefix_cons, ih]

theorem hasSubChars_iff (p : List Char) :
    ∀ l : List Char, hasSubChars p l = true ↔ p <:+: l := by
  intro l
  induction l with
  | nil => simp [hasSubChars, List.isEmpty_iff, List.infix_nil]
  | cons c cs ih =>
    simp [hasSubChars, startsWithChars_iff, ih, List.infix_cons_iff]

/-- Substring containment is transitive across an intermediate string. -/
theorem strContains_trans (m sub pat : String)
    (h1 : strContains sub pat = true) (h2 : strContains m sub = true) :
    strContains m pat = true := by
  have h1' := (hasSubChars_iff pat.data sub.data).mp h1
  have h2' := (hasSubChars_iff sub.data m.data).mp h2
  exact (hasSubChars_iff pat.data m.data).mpr (h1'.trans h2')

theorem strContains_false_of (m sub pat : String)
    (hsub : strContains sub pat = true) (h : strContains m pat = false) :
    strContains m sub = false := by
  cases hb : strContains m sub
  · rfl
  · have hc := strContains_trans m sub pat hsub hb
    rw [h] at hc
    exact Bool.noConfusion hc

/-- A message containing "clear list" contains "list". -/
theorem strContains_list_of_clear_list (m : String)
    (h : strContains m "clear list" = true) : strContains m "list" = true :=
  strContains_trans m "clear list" "list" (by decide) h

/-- The handler branches of `Chatbot.get_reply`. -/
inductive Intent where
  | add
  | remove
  | expiring
  | suggestions
  | showList
  | clearList
  | purchase
deriving DecidableEq, Repr

/-- Outcome of `Chatbot.get_reply`: either one of the `_handle_*` methods
is invoked, or a literal reply text is returned (greeting / fallback). -/
inductive Reply where
  | handled (i : Intent)
  | text (s : String)
deriving DecidableEq, Repr

/-- The fallback reply of `Chatbot.get_reply` (apostrophe written as an
escape). -/
def fallbackText : String := "Sorry, I don\x27t understand."

/-- The greeting reply of `Chatbot.get_reply`. -/
def greetingText : String := "Hello! How can I help you with your groceries today?"

/-- Model of the dispatch chain of `Chatbot.get_reply`: lower-case the
message, then take the first matching substring branch in source order. -/
def get_reply (message : String) : Reply :=
  let m := strLower message
  if strContains m "add" then Reply.handled Intent.add
  else if strContains m "remove" then Reply.handled Intent.remove
  else if strContains m "expiring" then Reply.handled Intent.expiring
  else if strContains m "suggestions" then Reply.handled Intent.suggestions
  else if strContains m "list" || strContains m "show list" then
    Reply.handled Intent.showList
  else if strContains m "clear list" then Reply.handled Intent.clearList
  else if strContains m "purchase" then Reply.handled Intent.purchase
  else if strContains m "hello" || strContains m "hi" then Reply.text greetingText
  else Reply.text fallbackText

/-- C7: the chat dispatcher is first-match in the fixed priority order
add, remove, expiring, suggestions, list, clear-list, purchase, greeting,
with the fixed fallback text when no keyword occurs; in particular any
message containing "add" (even one also containing "list") goes to the add
handler. -/
theorem get_reply_dispatch (msg : String) :
    (strContains (strLower msg) "add" = true →
      get_reply msg = Reply.handled Intent.add) ∧
    (strContains (strLower msg) "add" = false ∧
        strContains (strLower msg) "remove" = true →
      get_reply msg = Reply.handled Intent.remove) ∧
    (strContains (strLower msg) "add" = false ∧
        strContains (strLower msg) "remove" = false ∧
        strContains (strLower msg) "expiring" = true →
      get_reply msg = Reply.handled Intent.expiring) ∧
    (strContains (strLower msg) "add" = false ∧
        strContains (strLower msg) "remove" = false ∧
        strContains (strLower msg) "expiring" = false ∧
        strContains (strLower msg) "suggestions" = true →
      get_reply msg = Reply.handled Intent.suggestions) ∧
    (strContains (strLower msg) "add" = false ∧
        strContains (strLower msg) "remove" = false ∧
        strContains (strLower msg) "expiring" = false ∧
        strContains (strLower msg) "suggestions" = false ∧
        strContains (strLower msg) "list" = true →
      get_reply msg = Reply.handled Intent.showList) ∧
    (strContains (strLower msg) "add" = false ∧
        strContains (strLower msg) "remove" = false ∧
        strContains (strLower msg) "expiring" = false ∧
        strContains (strLower msg) "suggestions" = false ∧
        strContains (strLower msg) "list" = false ∧
        strContains (strLower msg) "show list" = false ∧
        strContains (strLower msg) "clear list" = true →
      get_reply msg = Reply.handled Intent.clearList) ∧
    (strContains (strLower msg) "add" = false ∧
        strContains (strLower msg) "remove" = false ∧
        strContains (strLower msg) "expiring" = false ∧
        strContains (strLower msg) "suggestions" = false ∧
        strContains (strLower msg) "list" = false ∧
        strContains (strLower msg) "purchase" = true →
      get_reply msg = Reply.handled Intent.purchase) ∧
    (strContains (strLower msg) "add" = false ∧
        strContains (strLower msg) "remove" = false ∧
        strContains (strLower msg) "expiring" = false ∧
        strContains (strLower msg) "suggestions" = false ∧
        strContains (strLower msg) "list" = false ∧
        strContains (strLower msg) "purchase" = false ∧
        (strContains (strLower msg) "hello" = true ∨
          strContains (strLower msg) "hi" = true) →
      get_reply msg = Reply.text greetingText) ∧
    (strContains (strLower msg) "add" = false ∧
        strContains (strLower msg) "remove" = false ∧
        strContains (strLower msg) "expiring" = false ∧
        strContains (strLower msg) "suggestions" = false ∧
        strContains (strLower msg) "list" = false ∧
        strContains (strLower msg) "purchase" = false ∧
        strContains (strLower msg) "hello" = false ∧
        strContains (strLower msg) "hi" = false →
      get_reply msg = Reply.text fallbackText) := by
  refine ⟨?_, ?_, ?_, ?_, ?_, ?_, ?_, ?_, ?_⟩
  · intro h1
    simp [get_reply, h1]
  · rintro ⟨h1, h2⟩
    simp [get_reply, h1, h2]
  · rintro ⟨h1, h2, h3⟩
    simp [get_reply, h1, h2, h3]
  · rintro ⟨h1, h2, h3, h4⟩
    simp [get_reply, h1, h2, h3, h4]
  · rintro ⟨h1, h2, h3, h4, h5⟩
    simp [get_reply, h1, h2, h3, h4, h5]
  · rintro ⟨h1, h2, h3, h4, h5, h5s, h6⟩
    simp [get_reply, h1, h2, h3, h4, h5, h5s, h6]
  · rintro ⟨h1, h2, h3, h4, h5, h7⟩
    have h5s : strContains (strLower msg) "show list" = false :=
      strContains_false_of (strLower msg) "show list" "list" (by decide) h5
    have h6 : strContains (strLower msg) "clear list" = false :=
      strContains_false_of (strLower msg) "clear list" "list" (by decide) h5
    simp [get_reply, h1, h2, h3, h4, h5, h5s, h6, h7]
  · rintro ⟨h1, h2, h3, h4, h5, h7, h8⟩
    have h5s : strContains (strLower msg) "show list" = false :=
      strContains_false_of (strLower msg) "show list" "list" (by decide) h5
    have h6 : strContains (strLower msg) "clear list" = false :=
      strContains_false_of (strLower msg) "clear list" "list" (by decide) h5
    rcases h8 with h8 | h8 <;>
      simp [get_reply, h1, h2, h3, h4, h5, h5s, h6, h7, h8]
  · rintro ⟨h1, h2, h3, h4, h5, h7, h8, h9⟩
    have h5s : strContains (strLower msg) "show list" = false :=
      strContains_false_of (strLower msg) "show list" "list" (by decide) h5
    have h6 : strContains (strLower msg) "clear list" = false :=
      strContains_false_of (strLower msg) "clear list" "list" (by decide) h5
    simp [get_reply, h1, h2, h3, h4, h5, h5s, h6, h7, h8, h9]

/-- C7 witness: a message containing both "add" and "list" goes to the add
handler, and a keyword-free message gets the fallback text. -/
theorem get_reply_dispatch_witness :
    get_reply "add milk to my list" = Reply.handled Intent.add ∧
    get_reply "what can you do" = Reply.text fallbackText :=
  ⟨(get_reply_dispatch "add milk to my list").1 (by decide),
   (get_reply_dispatch "what can you do").2.2.2.2.2.2.2.2 (by decide)⟩

/-- Model of the `Product` built in `Chatbot._handle_add`: the captured
unit or the literal "pcs" when the pattern captured none; the captured
quantity is not passed on to the `Product` at all. -/
def handle_add_product (nameCap : String) (unitCap : Option String)
    (catCap : Option String) : Product :=
  { name := nameCap, unit := some (unitCap.getD "pcs"), category := catCap }

/-- C9 counterexample: a `Product` created without an explicit unit keeps
the model default `unit = None`, not "pcs". -/
theorem product_unit_default_not_pcs :
    ({ name := "Milk" } : Product).unit = none ∧
    ({ name := "Milk" } : Product).unit ≠ some "pcs" :=
  ⟨rfl, by simp⟩

/-- C9 (amended): the `Product` model itself defaults `unit` to `None`;
it is the chat add handler that substitutes "pcs" when its pattern
captured no unit, and passes a captured unit through unchanged. -/
theorem handle_add_unit_default (n : String) (c : Option String) :
    (handle_add_product n none c).unit = some "pcs" ∧
    (∀ u : String, (handle_add_product n (some u) c).unit = some u) ∧
    (∀ nm : String, ({ name := nm } : Product).unit = none) :=
  ⟨rfl, fun _ => rfl, fun _ => rfl⟩

/-- C10: no message ever reaches the clear-list branch of the dispatcher,
because a message containing "clear list" also contains "list" and is
taken by the earlier list branch; "clear list" itself is dispatched to the
list-display handler, which does not clear the grocery list. -/
theorem clear_list_branch_unreachable :
    (∀ msg : String, get_reply msg ≠ Reply.handled Intent.clearList) ∧
    (∀ m : String, strContains m "clear list" = true →
      strContains m "list" = true) ∧
    get_reply "clear list" = Reply.handled Intent.showList := by
  refine ⟨?_, strContains_list_of_clear_list, by decide⟩
  intro msg h
  simp only [get_reply] at h
  split_ifs at h with h1 h2 h3 h4 h5 h6 h7 h8 <;> simp at h
  simp [strContains_list_of_clear_list (strLower msg) h6] at h5

/-- C10 witness: the message "clear list" satisfies the hypothesis of the
containment conjunct, which then yields that it contains "list". -/
theorem clear_list_branch_unreachable_witness :
    strContains "clear list" "clear list" = true ∧
    strContains "clear list" "list" = true :=
  ⟨by decide,
   clear_list_branch_unreachable.2.1 "clear list" (by decide)⟩

end Grocery
